import Mathlib

/-!
Verification of the LLFF pose-loading pipeline of `core/datasets/load_llff.py`
(nerf-pytorch-concise).

The file embeds the pose-geometry pipeline in Lean: the bookkeeping parts
(row parsing, scale step, rotation-column fix, split selection, intrinsics)
are modelled over `ℚ` so that concrete instances evaluate by `decide`; the
geometric parts (average frame, recentering, spiral path, spherification),
which use square roots and trigonometry, are modelled over `ℝ`.

A pose record is the 3×5 block of the source: columns 0–2 are the rotation
basis, column 3 the translation, column 4 the (height, width, focal)
intrinsics column.  Machine floats are modelled by exact field arithmetic.
-/

namespace LLFF

open Matrix

/-- A 3×5 pose record over `ℚ` (rotation columns 0–2, translation column 3,
intrinsics column 4), used for the exact/bookkeeping parts of the loader. -/
abbrev PoseQ := Matrix (Fin 3) (Fin 5) ℚ

/-- Minimum of a list of rationals (`0` on the empty list, which the source
never hits: `np.min` raises there). -/
def list_min : List ℚ → ℚ
  | [] => 0
  | [x] => x
  | x :: y :: t => min x (list_min (y :: t))

/-- Flatten the `(N, 2)` bounds array into the list of all its entries. -/
def bds_flat (bds : List (ℚ × ℚ)) : List ℚ :=
  bds.foldr (fun nf l => nf.1 :: nf.2 :: l) []

/-- `bds.min()`: the global minimum over every `(near, far)` entry. -/
def bds_min (bds : List (ℚ × ℚ)) : ℚ := list_min (bds_flat bds)

/-- Lines 37–39 of `load_llff.py`: the scale step.
`sc = 1. if bd_factor is None else 1./(bds.min() * bd_factor)`, then
`poses[:, :3, 3] *= sc` (every translation column) and `bds *= sc`
(every `(near, far)` pair). -/
def scale_step (bd_factor : Option ℚ) (pb : List PoseQ × List (ℚ × ℚ)) :
    List PoseQ × List (ℚ × ℚ) :=
  let sc : ℚ :=
    match bd_factor with
    | none => 1
    | some b => 1 / (bds_min pb.2 * b)
  (pb.1.map (fun p => Matrix.of fun r c => if (c : ℕ) = 3 then sc * p r c else p r c),
   pb.2.map (fun nf => (sc * nf.1, sc * nf.2)))

/-- Line 31 of `load_llff.py`:
`poses = np.concatenate([poses[:, 1:2, :], -poses[:, 0:1, :], poses[:, 2:, :]], 1)`.
New column 0 is the old column 1, new column 1 is the negated old column 0,
columns 2–4 are unchanged. -/
def correct_rotations (p : PoseQ) : PoseQ :=
  Matrix.of fun r c =>
    if (c : ℕ) = 0 then p r 1
    else if (c : ℕ) = 1 then -(p r 0)
    else p r c

/-- Line 95: `i_test = np.arange(imgs.shape[0])[::llffhold]` — every
`llffhold`-th index of `[0, N)`, i.e. the multiples of the stride. -/
def i_test_fn (N k : ℕ) : List ℕ := (List.range N).filter (fun i => i % k = 0)

/-- Line 96: `i_val = i_test`. -/
def i_val_fn (N k : ℕ) : List ℕ := i_test_fn N k

/-- Line 97: `i_train = [i for i in np.arange(N) if (i not in i_test and i not in i_val)]`. -/
def i_train_fn (N k : ℕ) : List ℕ :=
  (List.range N).filter (fun i => i ∉ i_test_fn N k ∧ i ∉ i_val_fn N k)

/-- Fancy indexing `arr[idx]`: gather the elements of `l` at the positions
listed in `idx` (all of which are in range at every call site). -/
def select_idx {α : Type} (l : List α) (idx : List ℕ) : List α :=
  idx.filterMap (fun i => l[i]?)

/-- Line 99: `imgs = imgs[i_train] if split == 'train' else imgs[i_test]`. -/
def split_imgs {α : Type} (imgs : List α) (k : ℕ) (sp : String) : List α :=
  if sp = "train" then select_idx imgs (i_train_fn imgs.length k)
  else select_idx imgs (i_test_fn imgs.length k)

/-- Lines 100 and 104: `poses = poses[i_train] if split == 'train' else poses[i_test]`,
then `if split == 'fake': poses = render_poses`.  `nImgs` is `imgs.shape[0]`,
from which the split indices are computed. -/
def split_poses {β : Type} (poses : List β) (nImgs k : ℕ) (render_poses : List β)
    (sp : String) : List β :=
  let sel := if sp = "train" then select_idx poses (i_train_fn nImgs k)
             else select_idx poses (i_test_fn nImgs k)
  if sp = "fake" then render_poses else sel

/-- A decoded image file: the pipeline only ever reads its pixel-grid shape. -/
structure ImageFile where
  h : ℕ
  w : ℕ
  deriving DecidableEq

/-- Lines 119–176 (`_load_data`), pure core.  Inputs: the parsed
`poses_bounds.npy` table (one row of 17 rationals per image), the decoded
image files of the selected image directory, the applied resize factor, and
whether that directory exists.  Each row's first 15 values reshape row-major
into a 3×5 pose block, the last 2 are the `(near, far)` bounds.  The loader
returns early (no bundle) when the image directory is missing or when the
pose-row count differs from the image count; otherwise it overwrites the
intrinsics column with the actual image height/width and the focal length
divided by the factor. -/
def load_data (poses_arr : List (Fin 17 → ℚ)) (imgfiles : List ImageFile)
    (factor : ℚ) (imgdir_exists : Bool) :
    Option (List PoseQ × List (ℚ × ℚ) × List ImageFile) :=
  let poses : List PoseQ := poses_arr.map (fun row =>
    Matrix.of fun r c =>
      row ⟨5 * (r : ℕ) + (c : ℕ), by have hr := r.isLt; have hc := c.isLt; omega⟩)
  let bds : List (ℚ × ℚ) := poses_arr.map (fun row => (row 15, row 16))
  if imgdir_exists = false then none
  else if poses.length ≠ imgfiles.length then none
  else
    match imgfiles with
    | [] => none
    | f0 :: _ =>
      some (poses.map (fun p => Matrix.of fun r c =>
              if (c : ℕ) = 4 then
                if (r : ℕ) = 0 then (f0.h : ℚ)
                else if (r : ℕ) = 1 then (f0.w : ℚ)
                else p r c * (1 / factor)
              else p r c),
            bds, imgfiles)

/-- Line 80: `K = np.array([[focal, 0, 0.5*W], [0, focal, 0.5*H], [0, 0, 1]])`. -/
def camera_K (H W : ℤ) (focal : ℚ) : Matrix (Fin 3) (Fin 3) ℚ :=
  !![focal, 0, (1 / 2 : ℚ) * (W : ℚ); 0, focal, (1 / 2 : ℚ) * (H : ℚ); 0, 0, 1]

/-- Read the image height back off the intrinsic matrix: `2 * K[1][2]`. -/
def K_height (K : Matrix (Fin 3) (Fin 3) ℚ) : ℚ := 2 * K 1 2

/-- Read the image width back off the intrinsic matrix: `2 * K[0][2]`. -/
def K_width (K : Matrix (Fin 3) (Fin 3) ℚ) : ℚ := 2 * K 0 2

/-- Read the focal length back off the intrinsic matrix: `K[0][0]`. -/
def K_focal (K : Matrix (Fin 3) (Fin 3) ℚ) : ℚ := K 0 0

/-! ### Real-valued geometry -/

/-- 3-vectors over `ℝ`. -/
abbrev V3 := Fin 3 → ℝ

/-- A 3×5 pose record over `ℝ`, for the geometric parts of the pipeline. -/
abbrev PoseR := Matrix (Fin 3) (Fin 5) ℝ

/-- Sum of squares of a 3-vector (the square of `np.linalg.norm`). -/
def dot3 (u v : V3) : ℝ := ∑ r, u r * v r

/-- Lines 231–232: `normalize(x) = x / np.linalg.norm(x)`. -/
noncomputable def normalize (x : V3) : V3 :=
  fun r => x r / Real.sqrt (dot3 x x)

/-- `np.cross` on 3-vectors. -/
def cross3 (u v : V3) : V3 :=
  ![u 1 * v 2 - u 2 * v 1, u 2 * v 0 - u 0 * v 2, u 0 * v 1 - u 1 * v 0]

/-- Lines 234–240 (`viewmatrix`): `vec2 = normalize(z)`,
`vec0 = normalize(np.cross(up, vec2))`, `vec1 = normalize(np.cross(vec2, vec0))`,
stacked as columns `[vec0, vec1, vec2, pos]`. -/
noncomputable def viewmatrix (z up pos : V3) : Matrix (Fin 3) (Fin 4) ℝ :=
  let vec2 := normalize z
  let vec0 := normalize (cross3 up vec2)
  let vec1 := normalize (cross3 vec2 vec0)
  Matrix.of fun r c =>
    if (c : ℕ) = 0 then vec0 r
    else if (c : ℕ) = 1 then vec1 r
    else if (c : ℕ) = 2 then vec2 r
    else pos r

/-- Mean of the translation columns of a non-empty pose set
(`poses[:, :3, 3].mean(0)`). -/
noncomputable def center_avg {n : ℕ} (poses : Fin (n + 1) → PoseR) : V3 :=
  fun r => (∑ i, poses i r 3) / ((n : ℝ) + 1)

/-- Lines 246–253 (`poses_avg`): columns 0–3 are
`viewmatrix(normalize(poses[:,:3,2].sum(0)), poses[:,:3,1].sum(0), center)`,
column 4 is the intrinsics column of the first pose. -/
noncomputable def poses_avg {n : ℕ} (poses : Fin (n + 1) → PoseR) : PoseR :=
  let vec2 := normalize (fun r => ∑ i, poses i r 2)
  let up : V3 := fun r => ∑ i, poses i r 1
  Matrix.of fun r c =>
    if hc : (c : ℕ) < 4 then viewmatrix vec2 up (center_avg poses) r ⟨c, hc⟩
    else poses 0 r c

/-- The 3×4 rotation-translation part of a 3×5 pose record. -/
def to4 (p : PoseR) : Matrix (Fin 3) (Fin 4) ℝ :=
  Matrix.of fun r c => p r (Fin.castLE (by omega) c)

/-- Promote a 3×4 transform to its homogeneous 4×4 form by appending the
bottom row `[0, 0, 0, 1]` (lines 272–276 and the `p34_to_44` of line 287). -/
def hom44 (p : Matrix (Fin 3) (Fin 4) ℝ) : Matrix (Fin 4) (Fin 4) ℝ :=
  Matrix.of fun r c =>
    if hr : (r : ℕ) < 3 then p ⟨r, hr⟩ c
    else if (c : ℕ) = 3 then 1 else 0

/-- Lines 270–281 (`recenter_poses`): left-multiply the inverse of the
homogeneous average frame into every pose's homogeneous form, keeping the
3×4 part of the product and the untouched intrinsics column. -/
noncomputable def recenter_poses {n : ℕ} (poses : Fin (n + 1) → PoseR) :
    Fin (n + 1) → PoseR :=
  let c2w := hom44 (to4 (poses_avg poses))
  fun i => Matrix.of fun r c =>
    if hc : (c : ℕ) < 4 then (c2w⁻¹ * hom44 (to4 (poses i))) r.castSucc ⟨c, hc⟩
    else poses i r c

/-- The `i`-th angle of `np.linspace(0., 2.*np.pi*rots, N+1)[:-1]`:
`θ_i = 2π · rots · i / N` for `i < N`. -/
noncomputable def spiral_theta (rots N i : ℕ) : ℝ :=
  2 * Real.pi * (rots : ℝ) * (i : ℝ) / (N : ℝ)

/-- The loop body of `render_path_spiral` (lines 263–265) at angle `θ`:
`c = c2w[:3,:4] @ (np.array([cos θ, -sin θ, -sin(θ*zrate), 1.]) * rads)`
(with `rads` extended by a fourth component `1`),
`z = normalize(c - c2w[:3,:4] @ [0, 0, -focal, 1])`, pose =
`viewmatrix(z, up, c)` with the intrinsics column of `c2w` appended. -/
noncomputable def spiral_pose (c2w : PoseR) (up rads : V3) (focal zrate θ : ℝ) : PoseR :=
  let rads4 : Fin 4 → ℝ := ![rads 0, rads 1, rads 2, 1]
  let ang : Fin 4 → ℝ := ![Real.cos θ, -Real.sin θ, -Real.sin (θ * zrate), 1]
  let c : V3 := fun r => ∑ k, to4 c2w r k * (ang k * rads4 k)
  let z : V3 := fun r => c r - ∑ k, to4 c2w r k * (![0, 0, -focal, 1] : Fin 4 → ℝ) k
  Matrix.of fun r col =>
    if hc : (col : ℕ) < 4 then viewmatrix z up c r ⟨col, hc⟩
    else c2w r col

/-- Lines 257–266 (`render_path_spiral`): one pose per retained `linspace`
angle.  `zdelta` is accepted and unused, as in the source. -/
noncomputable def render_path_spiral (c2w : PoseR) (up rads : V3)
    (focal zdelta zrate : ℝ) (rots N : ℕ) : List PoseR :=
  (List.range N).map (fun i => spiral_pose c2w up rads focal zrate (spiral_theta rots N i))

/-- `rays_d = poses[:, :3, 2:3]` (line 289): the forward column of each pose. -/
def sph_rays_d {n : ℕ} (poses : Fin (n + 1) → PoseR) : Fin (n + 1) → V3 :=
  fun i r => poses i r 2

/-- `rays_o = poses[:, :3, 3:4]` (line 290): the position column of each pose. -/
def sph_rays_o {n : ℕ} (poses : Fin (n + 1) → PoseR) : Fin (n + 1) → V3 :=
  fun i r => poses i r 3

/-- `A_i = np.eye(3) - rays_d @ rays_dᵀ` (line 293). -/
def line_A {n : ℕ} (rays_d : Fin (n + 1) → V3) (i : Fin (n + 1)) :
    Matrix (Fin 3) (Fin 3) ℝ :=
  1 - Matrix.of (fun r c => rays_d i r * rays_d i c)

/-- `(np.transpose(A_i, [0,2,1]) @ A_i).mean(0)` inside line 295. -/
noncomputable def line_M {n : ℕ} (rays_d : Fin (n + 1) → V3) :
    Matrix (Fin 3) (Fin 3) ℝ :=
  (((n : ℝ) + 1))⁻¹ • ∑ i, (line_A rays_d i)ᵀ * line_A rays_d i

/-- `b_i = -A_i @ rays_o` (line 294). -/
def line_b {n : ℕ} (rays_o rays_d : Fin (n + 1) → V3) (i : Fin (n + 1)) : V3 :=
  -(line_A rays_d i *ᵥ rays_o i)

/-- Lines 292–296 (`min_line_dist`):
`pt_mindist = -inv((A_iᵀ @ A_i).mean(0)) @ b_i.mean(0)`. -/
noncomputable def min_line_dist {n : ℕ} (rays_o rays_d : Fin (n + 1) → V3) : V3 :=
  -((line_M rays_d)⁻¹ *ᵥ fun r => (∑ i, line_b rays_o rays_d i r) / ((n : ℝ) + 1))

/-- Line 300: `center = pt_mindist` for the pose set's own rays. -/
noncomputable def sph_center {n : ℕ} (poses : Fin (n + 1) → PoseR) : V3 :=
  min_line_dist (sph_rays_o poses) (sph_rays_d poses)

/-- Line 301: `up = (poses[:, :3, 3] - center).mean(0)`. -/
noncomputable def sph_up {n : ℕ} (poses : Fin (n + 1) → PoseR) : V3 :=
  fun r => (∑ i, (sph_rays_o poses i r - sph_center poses r)) / ((n : ℝ) + 1)

/-- Line 303: `vec0 = normalize(up)`. -/
noncomputable def sph_vec0 {n : ℕ} (poses : Fin (n + 1) → PoseR) : V3 :=
  normalize (sph_up poses)

/-- Line 304: `vec1 = normalize(np.cross([.1,.2,.3], vec0))`. -/
noncomputable def sph_vec1 {n : ℕ} (poses : Fin (n + 1) → PoseR) : V3 :=
  normalize (cross3 ![1 / 10, 2 / 10, 3 / 10] (sph_vec0 poses))

/-- Line 305: `vec2 = normalize(np.cross(vec0, vec1))`. -/
noncomputable def sph_vec2 {n : ℕ} (poses : Fin (n + 1) → PoseR) : V3 :=
  normalize (cross3 (sph_vec0 poses) (sph_vec1 poses))

/-- Lines 303–307: the new frame `c2w = np.stack([vec1, vec2, vec0, pos], 1)`
with `pos = center`. -/
noncomputable def sph_c2w {n : ℕ} (poses : Fin (n + 1) → PoseR) :
    Matrix (Fin 3) (Fin 4) ℝ :=
  Matrix.of fun r c =>
    if (c : ℕ) = 0 then sph_vec1 poses r
    else if (c : ℕ) = 1 then sph_vec2 poses r
    else if (c : ℕ) = 2 then sph_vec0 poses r
    else sph_center poses r

/-- The 3×3 rotation block of a 3×4 frame. -/
def rot3 (m : Matrix (Fin 3) (Fin 4) ℝ) : Matrix (Fin 3) (Fin 3) ℝ :=
  Matrix.of fun r c => m r c.castSucc

/-- Extend a 3×3 rotation block with a zero translation column. -/
def with0 (R : Matrix (Fin 3) (Fin 3) ℝ) : Matrix (Fin 3) (Fin 4) ℝ :=
  Matrix.of fun r c => if hc : (c : ℕ) < 3 then R r ⟨c, hc⟩ else 0

/-- Line 309: `poses_reset = inv(p34_to_44(c2w[None])) @ p34_to_44(poses[:, :3, :4])`. -/
noncomputable def sph_poses_reset {n : ℕ} (poses : Fin (n + 1) → PoseR)
    (i : Fin (n + 1)) : Matrix (Fin 4) (Fin 4) ℝ :=
  (hom44 (sph_c2w poses))⁻¹ * hom44 (to4 (poses i))

/-- Line 311: `rad = np.sqrt(np.mean(np.sum(np.square(poses_reset[:, :3, 3]), -1)))`. -/
noncomputable def sph_rad {n : ℕ} (poses : Fin (n + 1) → PoseR) : ℝ :=
  Real.sqrt ((∑ i, ∑ r : Fin 3, sph_poses_reset poses i r.castSucc 3 ^ 2) / ((n : ℝ) + 1))

/-- Line 313: `sc = 1. / rad`, the rescale factor of `spherify_poses`. -/
noncomputable def sph_sc {n : ℕ} (poses : Fin (n + 1) → PoseR) : ℝ :=
  1 / sph_rad poses

/-! ### Concrete instances used by the counterexamples and witnesses -/

/-- A single pose with translation column `(1, 2, 3)` and bounds-free columns `0`. -/
def pose_tr123 : PoseQ :=
  Matrix.of fun r c => if (c : ℕ) = 3 then ((r : ℚ) + 1) else 0

/-- A 3×5 real pose whose rotation block is the identity, with zero
translation and zero intrinsics column. -/
def pose_id : PoseR :=
  Matrix.of fun r c => if (c : ℕ) = (r : ℕ) then 1 else 0

/-- A single-pose set with identity rotation, zero translation, and a
nontrivial intrinsics column `(100, 80, 50)`. -/
def pose_w3 : Fin 1 → PoseR :=
  fun _ => Matrix.of fun r c =>
    if (c : ℕ) < 3 then (if (r : ℕ) = (c : ℕ) then 1 else 0)
    else if (c : ℕ) = 3 then 0
    else if (r : ℕ) = 0 then 100 else if (r : ℕ) = 1 then 80 else 50

/-- Three cameras sitting at `e₀`, `e₁`, `e₂` on the unit sphere, each with
forward column pointing exactly at the origin (`rays_d = -rays_o`); the
remaining columns are `0`. -/
def sphere_poses : Fin 3 → PoseR :=
  fun i => Matrix.of fun r c =>
    if (c : ℕ) = 3 then (if (r : ℕ) = (i : ℕ) then 1 else 0)
    else if (c : ℕ) = 2 then -(if (r : ℕ) = (i : ℕ) then 1 else 0)
    else 0

/-! ### Helper lemmas -/

theorem list_min_map_mul (sc : ℚ) (hsc : 0 ≤ sc) : ∀ l : List ℚ,
    list_min (l.map (fun x => sc * x)) = sc * list_min l
  | [] => by simp [list_min]
  | [x] => by simp [list_min]
  | x :: y :: t => by
    have ih := list_min_map_mul sc hsc (y :: t)
    simp only [List.map_cons, list_min] at ih ⊢
    rw [ih, mul_min_of_nonneg _ _ hsc]

theorem bds_flat_map_mul (sc : ℚ) (bds : List (ℚ × ℚ)) :
    bds_flat (bds.map (fun nf => (sc * nf.1, sc * nf.2))) =
      (bds_flat bds).map (fun x => sc * x) := by
  induction bds with
  | nil => rfl
  | cons a t ih =>
    simp only [List.map_cons, bds_flat, List.foldr_cons] at ih ⊢
    rw [ih]

theorem bds_min_map_mul (sc : ℚ) (hsc : 0 ≤ sc) (bds : List (ℚ × ℚ)) :
    bds_min (bds.map (fun nf => (sc * nf.1, sc * nf.2))) = sc * bds_min bds := by
  rw [bds_min, bds_min, bds_flat_map_mul, list_min_map_mul sc hsc]

theorem select_idx_length {α : Type} (l : List α) (idx : List ℕ)
    (h : ∀ i ∈ idx, i < l.length) : (select_idx l idx).length = idx.length := by
  induction idx with
  | nil => rfl
  | cons a t ih =>
    have ha : a < l.length := h a (List.mem_cons_self a t)
    simp only [select_idx, List.filterMap_cons, List.getElem?_eq_getElem ha] at ih ⊢
    simp only [List.length_cons]
    rw [ih (fun i hi => h i (List.mem_cons_of_mem a hi))]

theorem mem_i_test_lt (N k i : ℕ) (h : i ∈ i_test_fn N k) : i < N := by
  simpa using List.mem_range.mp (List.mem_filter.mp h).1

theorem mem_i_train_lt (N k i : ℕ) (h : i ∈ i_train_fn N k) : i < N := by
  simpa using List.mem_range.mp (List.mem_filter.mp h).1

/-! ### Claim theorems -/

/-- C10: the rotation-ordering fix of line 31 sends column 0 to the old
column 1 and column 1 to the negated old column 0, and leaves the forward,
translation and intrinsics columns (2, 3, 4) unchanged. -/
theorem correct_rotations_columns (p : PoseQ) (r : Fin 3) :
    correct_rotations p r 0 = p r 1 ∧
    correct_rotations p r 1 = -(p r 0) ∧
    correct_rotations p r 2 = p r 2 ∧
    correct_rotations p r 3 = p r 3 ∧
    correct_rotations p r 4 = p r 4 :=
  ⟨rfl, rfl, rfl, rfl, rfl⟩

/-- C7: building `K` from a valid `(H, W, focal)` triple and reading the
triple back off `K` (`H = 2*K[1][2]`, `W = 2*K[0][2]`, `focal = K[0][0]`)
reproduces `H` and `W` exactly and the focal length within `1e-4`. -/
theorem camera_K_roundtrip (H W : ℤ) (focal : ℚ) (hf : 0 < focal) :
    K_height (camera_K H W focal) = (H : ℚ) ∧
    K_width (camera_K H W focal) = (W : ℚ) ∧
    |K_focal (camera_K H W focal) - focal| ≤ 1 / 10000 := by
  refine ⟨?_, ?_, ?_⟩ <;> simp [K_height, K_width, K_focal, camera_K] <;> ring_nf

/-- Witness for `camera_K_roundtrip` at `(H, W, focal) = (3, 4, 7)`. -/
theorem camera_K_roundtrip_witness :
    (0 : ℚ) < 7 ∧
    (K_height (camera_K 3 4 7) = ((3 : ℤ) : ℚ) ∧
     K_width (camera_K 3 4 7) = ((4 : ℤ) : ℚ) ∧
     |K_focal (camera_K 3 4 7) - 7| ≤ 1 / 10000) :=
  ⟨by norm_num, camera_K_roundtrip 3 4 7 (by norm_num)⟩

/-- C6: when the number of pose rows differs from the number of image files,
`_load_data` returns no dataset bundle at all. -/
theorem load_data_mismatch_none (poses_arr : List (Fin 17 → ℚ))
    (imgfiles : List ImageFile) (factor : ℚ) (imgdir_exists : Bool)
    (h : poses_arr.length ≠ imgfiles.length) :
    load_data poses_arr imgfiles factor imgdir_exists = none := by
  cases imgdir_exists with
  | false => simp [load_data]
  | true => simp [load_data, h]

/-- Witness for `load_data_mismatch_none`: one pose row, no image files. -/
theorem load_data_mismatch_none_witness :
    ([fun _ => (0 : ℚ)] : List (Fin 17 → ℚ)).length ≠ ([] : List ImageFile).length ∧
    load_data [fun _ => (0 : ℚ)] [] 8 true = none :=
  ⟨by simp, load_data_mismatch_none [fun _ => 0] [] 8 true (by simp)⟩

/-- Shared computation behind the C1 results: the second application of the
scale step computes `sc = 1` and is the identity on the first application's
output. -/
theorem scale_step_idem_aux (b : ℚ) (poses : List PoseQ) (bds : List (ℚ × ℚ))
    (hb : 0 < b) (hmin : 0 < bds_min bds) :
    scale_step (some b) (scale_step (some b) (poses, bds)) =
      scale_step (some b) (poses, bds) := by
  have hsc : (0 : ℚ) ≤ 1 / (bds_min bds * b) :=
    le_of_lt (div_pos one_pos (mul_pos hmin hb))
  have hmb : bds_min bds * b ≠ 0 := ne_of_gt (mul_pos hmin hb)
  have hone : 1 / (bds_min (bds.map (fun nf =>
      (1 / (bds_min bds * b) * nf.1, 1 / (bds_min bds * b) * nf.2))) * b) = 1 := by
    rw [bds_min_map_mul _ hsc bds]
    field_simp
  simp only [scale_step]
  rw [hone, Prod.mk.injEq]
  constructor
  · generalize (poses.map _ : List PoseQ) = l
    refine (List.map_congr_left ?_).trans (List.map_id _)
    intro p _
    ext r c
    by_cases hc : (c : ℕ) = 3 <;> simp [hc]
  · generalize (bds.map _ : List (ℚ × ℚ)) = l
    refine (List.map_congr_left ?_).trans (List.map_id _)
    intro nf _
    simp

/-- `bds_min [(2, 4)] = 2`. -/
theorem bds_min_24 : bds_min [((2 : ℚ), 4)] = 2 := by
  have h : (2 : ℚ) ≤ 4 := by norm_num
  simp [bds_min, bds_flat, list_min, min_eq_left h]

/-- C1 as stated is false: on the already-scaled output, the scale step
recomputes `sc = 1` and changes nothing.  Concretely, with one pose of
translation `(1, 2, 3)`, bounds `[(2, 4)]` and `bd_factor = 3/4`, a second
application returns the first application's output unchanged. -/
theorem scale_step_second_application_fixed :
    scale_step (some (3 / 4)) (scale_step (some (3 / 4)) ([pose_tr123], [(2, 4)])) =
      scale_step (some (3 / 4)) ([pose_tr123], [(2, 4)]) :=
  scale_step_idem_aux (3 / 4) [pose_tr123] [(2, 4)] (by norm_num)
    (by rw [bds_min_24]; norm_num)

/-- C1 (amended): for every pose set with positive bounds and every
`bd_factor > 0`, the scale step is idempotent: the second application
computes `sc = 1/(min(scaled bounds) * bd_factor) = 1` and leaves every
translation column and every `(near, far)` pair unchanged. -/
theorem scale_step_idempotent (b : ℚ) (poses : List PoseQ) (bds : List (ℚ × ℚ))
    (hb : 0 < b) (hmin : 0 < bds_min bds) :
    scale_step (some b) (scale_step (some b) (poses, bds)) =
      scale_step (some b) (poses, bds) :=
  scale_step_idem_aux b poses bds hb hmin

/-- Witness for `scale_step_idempotent` at the concrete input
`bd_factor = 3/4`, one pose of translation `(1, 2, 3)`, bounds `[(2, 4)]`. -/
theorem scale_step_idempotent_witness :
    ((0 : ℚ) < 3 / 4 ∧ (0 : ℚ) < bds_min [(2, 4)]) ∧
    scale_step (some (3 / 4)) (scale_step (some (3 / 4)) ([pose_tr123], [(2, 4)])) =
      scale_step (some (3 / 4)) ([pose_tr123], [(2, 4)]) :=
  ⟨⟨by norm_num, by rw [bds_min_24]; norm_num⟩,
   scale_step_idempotent (3 / 4) [pose_tr123] [(2, 4)] (by norm_num)
     (by rw [bds_min_24]; norm_num)⟩

/-- C4: for every item count and stride `k ≥ 1` the holdout split is a
partition (`train ∩ test = ∅`, `train ∪ test = {0..N-1}`), and in the
concrete scenario `N = 17`, `k = 8`: `i_test = [0, 8, 16]`, `i_train` has
the other 14 indices, `split='train'` returns 14 images/poses and
`split='test'` returns 3. -/
theorem llff_split_partition (N k : ℕ) (hk : 1 ≤ k) (imgs poses : List ℕ)
    (himgs : imgs.length = 17) (hposes : poses.length = 17) :
    (∀ i, i ∈ i_train_fn N k → i ∉ i_test_fn N k) ∧
    (∀ i, i < N ↔ (i ∈ i_train_fn N k ∨ i ∈ i_test_fn N k)) ∧
    i_test_fn 17 8 = [0, 8, 16] ∧
    (i_train_fn 17 8).length = 14 ∧
    (split_imgs imgs 8 "train").length = 14 ∧
    (split_imgs imgs 8 "test").length = 3 ∧
    (split_poses poses 17 8 [] "train").length = 14 ∧
    (split_poses poses 17 8 [] "test").length = 3 := by
  have htr : ∀ i, i ∈ i_train_fn N k → i ∉ i_test_fn N k := by
    intro i hi
    exact ((List.mem_filter.mp hi).2 |> of_decide_eq_true |> And.left)
  refine ⟨htr, ?_, by decide, by decide, ?_, ?_, ?_, ?_⟩
  · intro i
    constructor
    · intro hiN
      by_cases ht : i ∈ i_test_fn N k
      · exact Or.inr ht
      · refine Or.inl (List.mem_filter.mpr ⟨List.mem_range.mpr hiN, ?_⟩)
        exact decide_eq_true (by exact ⟨ht, ht⟩)
    · rintro (h | h)
      · exact mem_i_train_lt N k i h
      · exact mem_i_test_lt N k i h
  · rw [split_imgs, if_pos rfl, himgs,
      select_idx_length imgs _ (fun i hi => himgs ▸ mem_i_train_lt 17 8 i hi)]
    decide
  · rw [split_imgs, if_neg (by decide), himgs,
      select_idx_length imgs _ (fun i hi => himgs ▸ mem_i_test_lt 17 8 i hi)]
    decide
  · show (if ("train" : String) = "fake" then ([] : List ℕ)
        else if ("train" : String) = "train" then select_idx poses (i_train_fn 17 8)
        else select_idx poses (i_test_fn 17 8)).length = 14
    rw [if_neg (by decide), if_pos rfl,
      select_idx_length poses _ (fun i hi => hposes ▸ mem_i_train_lt 17 8 i hi)]
    decide
  · show (if ("test" : String) = "fake" then ([] : List ℕ)
        else if ("test" : String) = "train" then select_idx poses (i_train_fn 17 8)
        else select_idx poses (i_test_fn 17 8)).length = 3
    rw [if_neg (by decide), if_neg (by decide),
      select_idx_length poses _ (fun i hi => hposes ▸ mem_i_test_lt 17 8 i hi)]
    decide

/-- Witness for `llff_split_partition` at `N = 17`, `k = 8`,
`imgs = poses = List.range 17`. -/
theorem llff_split_partition_witness :
    (1 ≤ 8 ∧ (List.range 17).length = 17) ∧
    ((∀ i, i ∈ i_train_fn 17 8 → i ∉ i_test_fn 17 8) ∧
     (∀ i, i < 17 ↔ (i ∈ i_train_fn 17 8 ∨ i ∈ i_test_fn 17 8)) ∧
     i_test_fn 17 8 = [0, 8, 16] ∧
     (i_train_fn 17 8).length = 14 ∧
     (split_imgs (List.range 17) 8 "train").length = 14 ∧
     (split_imgs (List.range 17) 8 "test").length = 3 ∧
     (split_poses (List.range 17) 17 8 [] "train").length = 14 ∧
     (split_poses (List.range 17) 17 8 [] "test").length = 3) :=
  ⟨⟨by norm_num, by simp⟩,
   llff_split_partition 17 8 (by norm_num) (List.range 17) (List.range 17)
     (by simp) (by simp)⟩

/-- C9: with `split='fake'` the loader returns the test-split images but the
synthesized render path as poses, so the image count equals the test-index
count while the pose count equals the render-path length (120 for the
default spiral); the two counts differ whenever the test set does not have
that many elements, whereas for the other splits image and pose counts
always agree. -/
theorem split_fake_counts {α β : Type} (imgs : List α) (poses render : List β) (k : ℕ)
    (hlen : poses.length = imgs.length) :
    (split_imgs imgs k "fake").length = (i_test_fn imgs.length k).length ∧
    split_poses poses imgs.length k render "fake" = render ∧
    ((i_test_fn imgs.length k).length ≠ render.length →
      (split_imgs imgs k "fake").length ≠
        (split_poses poses imgs.length k render "fake").length) ∧
    (∀ sp, sp = "train" ∨ sp = "test" ∨ sp = "val" →
      (split_imgs imgs k sp).length =
        (split_poses poses imgs.length k render sp).length) ∧
    (∀ (c2w : PoseR) (up rads : V3) (focal zdelta zrate : ℝ),
      (render_path_spiral c2w up rads focal zdelta zrate 2 120).length = 120) := by
  have himgs : (split_imgs imgs k "fake").length = (i_test_fn imgs.length k).length := by
    rw [split_imgs, if_neg (by decide)]
    exact select_idx_length imgs _ (fun i hi => mem_i_test_lt _ k i hi)
  have hposes : split_poses poses imgs.length k render "fake" = render := by
    show (if ("fake" : String) = "fake" then render
        else if ("fake" : String) = "train" then select_idx poses (i_train_fn imgs.length k)
        else select_idx poses (i_test_fn imgs.length k)) = render
    rw [if_pos rfl]
  refine ⟨himgs, hposes, ?_, ?_, ?_⟩
  · intro hne
    rw [himgs, hposes]
    exact hne
  · rintro sp (rfl | rfl | rfl)
    · show _ = (if ("train" : String) = "fake" then render
          else if ("train" : String) = "train" then select_idx poses (i_train_fn imgs.length k)
          else select_idx poses (i_test_fn imgs.length k)).length
      rw [split_imgs, if_pos rfl, if_neg (by decide), if_pos rfl,
        select_idx_length imgs _ (fun i hi => mem_i_train_lt _ k i hi),
        select_idx_length poses _ (fun i hi => by
          rw [hlen]; exact mem_i_train_lt _ k i hi)]
    · show _ = (if ("test" : String) = "fake" then render
          else if ("test" : String) = "train" then select_idx poses (i_train_fn imgs.length k)
          else select_idx poses (i_test_fn imgs.length k)).length
      rw [split_imgs, if_neg (by decide), if_neg (by decide), if_neg (by decide),
        select_idx_length imgs _ (fun i hi => mem_i_test_lt _ k i hi),
        select_idx_length poses _ (fun i hi => by
          rw [hlen]; exact mem_i_test_lt _ k i hi)]
    · show _ = (if ("val" : String) = "fake" then render
          else if ("val" : String) = "train" then select_idx poses (i_train_fn imgs.length k)
          else select_idx poses (i_test_fn imgs.length k)).length
      rw [split_imgs, if_neg (by decide), if_neg (by decide), if_neg (by decide),
        select_idx_length imgs _ (fun i hi => mem_i_test_lt _ k i hi),
        select_idx_length poses _ (fun i hi => by
          rw [hlen]; exact mem_i_test_lt _ k i hi)]
  · intro c2w up rads focal zdelta zrate
    simp [render_path_spiral]

/-- Witness for `split_fake_counts` with two images/poses, an empty render
path and stride 1. -/
theorem split_fake_counts_witness :
    ([0, 1] : List ℕ).length = ([0, 1] : List ℕ).length ∧
    ((split_imgs ([0, 1] : List ℕ) 1 "fake").length =
       (i_test_fn ([0, 1] : List ℕ).length 1).length ∧
     split_poses ([0, 1] : List ℕ) ([0, 1] : List ℕ).length 1 ([] : List ℕ) "fake" = [] ∧
     ((i_test_fn ([0, 1] : List ℕ).length 1).length ≠ ([] : List ℕ).length →
       (split_imgs ([0, 1] : List ℕ) 1 "fake").length ≠
         (split_poses ([0, 1] : List ℕ) ([0, 1] : List ℕ).length 1 ([] : List ℕ) "fake").length) ∧
     (∀ sp, sp = "train" ∨ sp = "test" ∨ sp = "val" →
       (split_imgs ([0, 1] : List ℕ) 1 sp).length =
         (split_poses ([0, 1] : List ℕ) ([0, 1] : List ℕ).length 1 ([] : List ℕ) sp).length) ∧
     (∀ (c2w : PoseR) (up rads : V3) (focal zdelta zrate : ℝ),
       (render_path_spiral c2w up rads focal zdelta zrate 2 120).length = 120)) :=
  ⟨rfl, split_fake_counts [0, 1] [0, 1] [] 1 rfl⟩

/-- C8: recentering replaces only the 3×4 rotation-translation block; the
intrinsics column (column 4) of every returned pose equals that of the
corresponding input pose. -/
theorem recenter_poses_keeps_intrinsics {n : ℕ} (poses : Fin (n + 1) → PoseR)
    (i : Fin (n + 1)) (r : Fin 3) :
    recenter_poses poses i r 4 = poses i r 4 := rfl

/-- The position column of the average frame is the mean camera position. -/
theorem poses_avg_pos {n : ℕ} (poses : Fin (n + 1) → PoseR) (r : Fin 3) :
    poses_avg poses r 3 = center_avg poses r := rfl

/-- Column 3 of the homogeneous promotion of a pose's 3×4 part. -/
theorem hom44_to4_col3 (p : PoseR) (k : Fin 4) :
    hom44 (to4 p) k 3 = if h : (k : ℕ) < 3 then p ⟨k, h⟩ 3 else 1 := by
  by_cases h : (k : ℕ) < 3 <;> simp [hom44, to4, h] <;> rfl

/-- C3: after recentering, the average frame recomputed over the output has
position exactly the origin — the average camera is the new world origin —
provided the homogeneous average frame was invertible (as `np.linalg.inv`
requires). -/
theorem recenter_poses_avg_origin {n : ℕ} (poses : Fin (n + 1) → PoseR)
    (hdet : IsUnit (hom44 (to4 (poses_avg poses))).det) (r : Fin 3) :
    poses_avg (recenter_poses poses) r 3 = 0 := by
  have hnz : ((n : ℝ) + 1) ≠ 0 := by positivity
  have h2 : ∀ i : Fin (n + 1), recenter_poses poses i r 3 =
      ∑ k : Fin 4, (hom44 (to4 (poses_avg poses)))⁻¹ r.castSucc k *
        (if h : (k : ℕ) < 3 then poses i ⟨k, h⟩ 3 else 1) := by
    intro i
    show ((hom44 (to4 (poses_avg poses)))⁻¹ * hom44 (to4 (poses i))) r.castSucc 3 = _
    rw [Matrix.mul_apply]
    exact Finset.sum_congr rfl fun k _ => by rw [hom44_to4_col3]
  have hcol : ∀ k : Fin 4,
      (∑ i : Fin (n + 1), (if h : (k : ℕ) < 3 then poses i ⟨k, h⟩ 3 else 1)) /
          ((n : ℝ) + 1) = hom44 (to4 (poses_avg poses)) k 3 := by
    intro k
    rw [hom44_to4_col3]
    by_cases h : (k : ℕ) < 3
    · simp only [dif_pos h]
      exact rfl
    · simp only [dif_neg h]
      rw [Finset.sum_const, Finset.card_univ, Fintype.card_fin]
      simp only [nsmul_eq_mul, mul_one]
      push_cast
      exact div_self hnz
  show center_avg (recenter_poses poses) r = 0
  unfold center_avg
  calc (∑ i, recenter_poses poses i r 3) / ((n : ℝ) + 1)
      = (∑ i : Fin (n + 1), ∑ k : Fin 4,
          (hom44 (to4 (poses_avg poses)))⁻¹ r.castSucc k *
            (if h : (k : ℕ) < 3 then poses i ⟨k, h⟩ 3 else 1)) / ((n : ℝ) + 1) := by
        rw [Finset.sum_congr rfl fun i _ => h2 i]
    _ = ∑ k : Fin 4, (hom44 (to4 (poses_avg poses)))⁻¹ r.castSucc k *
          ((∑ i : Fin (n + 1), (if h : (k : ℕ) < 3 then poses i ⟨k, h⟩ 3 else 1)) /
            ((n : ℝ) + 1)) := by
        rw [Finset.sum_comm, Finset.sum_div]
        exact Finset.sum_congr rfl fun k _ => by rw [← Finset.mul_sum, mul_div_assoc]
    _ = ∑ k : Fin 4, (hom44 (to4 (poses_avg poses)))⁻¹ r.castSucc k *
          hom44 (to4 (poses_avg poses)) k 3 := by
        exact Finset.sum_congr rfl fun k _ => by rw [hcol k]
    _ = ((hom44 (to4 (poses_avg poses)))⁻¹ * hom44 (to4 (poses_avg poses))) r.castSucc 3 := by
        rw [Matrix.mul_apply]
    _ = (1 : Matrix (Fin 4) (Fin 4) ℝ) r.castSucc 3 := by
        rw [Matrix.nonsing_inv_mul _ hdet]
    _ = 0 := by
        refine Matrix.one_apply_ne (Fin.ne_of_val_ne ?_)
        simpa using Nat.ne_of_lt r.isLt

/-- The homogeneous average frame of the single identity-rotation pose is the
identity matrix. -/
theorem pose_w3_hom44 : hom44 (to4 (poses_avg pose_w3)) = 1 := by
  ext r c
  fin_cases r <;> fin_cases c <;>
    simp +decide [hom44, to4, poses_avg, viewmatrix, center_avg, normalize, cross3, dot3,
      pose_w3, Matrix.one_apply, Fin.sum_univ_three, Real.sqrt_one]

/-- The determinant hypothesis of `recenter_poses_avg_origin` holds at the
concrete single-pose input. -/
theorem pose_w3_det : IsUnit (hom44 (to4 (poses_avg pose_w3))).det := by
  rw [pose_w3_hom44]
  simp

/-- Witness for `recenter_poses_avg_origin` at the single identity pose. -/
theorem recenter_poses_avg_origin_witness :
    IsUnit (hom44 (to4 (poses_avg pose_w3))).det ∧
    poses_avg (recenter_poses pose_w3) 0 3 = 0 :=
  ⟨pose_w3_det, recenter_poses_avg_origin pose_w3 pose_w3_det 0⟩

/-- `θ₀ = 0`. -/
theorem spiral_theta_0 : spiral_theta 2 120 0 = 0 := by
  simp [spiral_theta]

/-- `θ₆₀ = 2π`: sample 60 of the two-turn spiral closes the first turn. -/
theorem spiral_theta_60 : spiral_theta 2 120 60 = 2 * Real.pi := by
  rw [spiral_theta]
  norm_num
  ring

/-- With `zrate = 1/2` and two turns over 120 samples, the spiral poses at
indices 60 and 0 are equal: `cos 2π = cos 0`, `sin 2π = sin 0`,
`sin (2π/2) = sin π = 0 = sin 0`. -/
theorem spiral_pose_60_eq_0 (c2w : PoseR) (up rads : V3) (focal : ℝ) :
    spiral_pose c2w up rads focal (1 / 2) (spiral_theta 2 120 60) =
      spiral_pose c2w up rads focal (1 / 2) (spiral_theta 2 120 0) := by
  rw [spiral_theta_60, spiral_theta_0]
  have hc : Real.cos (2 * Real.pi) = Real.cos 0 := by
    rw [Real.cos_two_pi, Real.cos_zero]
  have hs : Real.sin (2 * Real.pi) = Real.sin 0 := by
    rw [Real.sin_two_pi, Real.sin_zero]
  have hz : Real.sin (2 * Real.pi * (1 / 2)) = Real.sin (0 * (1 / 2)) := by
    have h2 : 2 * Real.pi * (1 / 2) = Real.pi := by ring
    rw [h2, Real.sin_pi, zero_mul, Real.sin_zero]
  simp only [spiral_pose]
  rw [hc, hs, hz]

/-- C2 as stated is false: at a concrete spiral anchor (identity rotation,
zero translation, unit radii, `focal = 1`) with `rots = 2`, `N = 120`,
`zrate = 1/2`, the 120 generated path points are not pairwise distinct —
the positions at indices 0 and 60 (θ = 0 and θ = 2π) coincide. -/
theorem render_path_spiral_duplicate_counterexample :
    ¬ List.Pairwise (fun p q : V3 => p ≠ q)
        ((render_path_spiral pose_id ![0, 1, 0] ![1, 1, 1] 1 0 (1 / 2) 2 120).map
          (fun p r => p r 3)) := by
  intro hpw
  rw [List.pairwise_iff_getElem] at hpw
  have hlen : ((render_path_spiral pose_id ![0, 1, 0] ![1, 1, 1] 1 0 (1 / 2) 2 120).map
      (fun p r => p r 3)).length = 120 := by
    simp [render_path_spiral]
  have hne := hpw 0 60 (by rw [hlen]; norm_num) (by rw [hlen]; norm_num) (by norm_num)
  apply hne
  simp only [render_path_spiral, List.map_map, List.getElem_map, List.getElem_range,
    Function.comp_apply]
  rw [spiral_pose_60_eq_0 pose_id ![0, 1, 0] ![1, 1, 1] 1]

/-- C2 (amended): spiral synthesis with `rots = 2`, `N = 120`, `zrate = 1/2`
produces exactly 120 path points (the closing sample `θ = 4π` is dropped),
but they are not pairwise distinct: for every anchor, radii and focal depth
the poses at indices 0 and 60 are equal, so at most 119 positions are
distinct. -/
theorem render_path_spiral_length_and_duplicate (c2w : PoseR) (up rads : V3)
    (focal zdelta : ℝ) :
    (render_path_spiral c2w up rads focal zdelta (1 / 2) 2 120).length = 120 ∧
    (render_path_spiral c2w up rads focal zdelta (1 / 2) 2 120)[0]? =
      (render_path_spiral c2w up rads focal zdelta (1 / 2) 2 120)[60]? ∧
    ¬ List.Pairwise (fun p q : V3 => p ≠ q)
        ((render_path_spiral c2w up rads focal zdelta (1 / 2) 2 120).map
          (fun p r => p r 3)) := by
  refine ⟨by simp [render_path_spiral], ?_, ?_⟩
  · simp only [render_path_spiral, List.getElem?_map,
      List.getElem?_range (by norm_num : (0 : ℕ) < 120),
      List.getElem?_range (by norm_num : (60 : ℕ) < 120), Option.map_some']
    exact congrArg some (spiral_pose_60_eq_0 c2w up rads focal).symm
  · intro hpw
    rw [List.pairwise_iff_getElem] at hpw
    have hlen : ((render_path_spiral c2w up rads focal zdelta (1 / 2) 2 120).map
        (fun p r => p r 3)).length = 120 := by
      simp [render_path_spiral]
    have hne := hpw 0 60 (by rw [hlen]; norm_num) (by rw [hlen]; norm_num) (by norm_num)
    apply hne
    simp only [render_path_spiral, List.map_map, List.getElem_map, List.getElem_range,
      Function.comp_apply]
    rw [spiral_pose_60_eq_0 c2w up rads focal]

/-! ### Vector algebra helpers for the spherify proof -/

theorem dot3_expand (u v : V3) : dot3 u v = u 0 * v 0 + u 1 * v 1 + u 2 * v 2 := by
  rw [dot3, Fin.sum_univ_three]

theorem cross3_apply0 (u v : V3) : cross3 u v 0 = u 1 * v 2 - u 2 * v 1 := rfl

theorem cross3_apply1 (u v : V3) : cross3 u v 1 = u 2 * v 0 - u 0 * v 2 := rfl

theorem cross3_apply2 (u v : V3) : cross3 u v 2 = u 0 * v 1 - u 1 * v 0 := rfl

theorem dot3_comm (u v : V3) : dot3 u v = dot3 v u := by
  rw [dot3_expand, dot3_expand]
  ring

theorem dot3_cross_left (u v : V3) : dot3 (cross3 u v) u = 0 := by
  rw [dot3_expand, cross3_apply0, cross3_apply1, cross3_apply2]
  ring

theorem dot3_cross_right (u v : V3) : dot3 (cross3 u v) v = 0 := by
  rw [dot3_expand, cross3_apply0, cross3_apply1, cross3_apply2]
  ring

theorem dot3_cross_self (u v : V3) :
    dot3 (cross3 u v) (cross3 u v) = dot3 u u * dot3 v v - dot3 u v * dot3 u v := by
  simp only [dot3_expand, cross3_apply0, cross3_apply1, cross3_apply2]
  ring

theorem dot3_self_pos (u : V3) (h : u ≠ 0) : 0 < dot3 u u := by
  rcases Function.ne_iff.mp h with ⟨r, hr⟩
  have hr' : u r ≠ 0 := by simpa using hr
  have h2 : 0 < u r * u r := mul_self_pos.mpr hr'
  have h3 : u r * u r ≤ dot3 u u := by
    rw [dot3]
    exact Finset.single_le_sum (fun i _ => mul_self_nonneg (u i)) (Finset.mem_univ r)
  linarith

theorem dot3_normalize_left (u v : V3) :
    dot3 (normalize u) v = dot3 u v / Real.sqrt (dot3 u u) := by
  rw [dot3_expand, dot3_expand]
  unfold normalize
  rw [div_mul_eq_mul_div, div_mul_eq_mul_div, div_mul_eq_mul_div,
    div_add_div_same, div_add_div_same]

theorem dot3_normalize_right (u v : V3) :
    dot3 u (normalize v) = dot3 u v / Real.sqrt (dot3 v v) := by
  rw [dot3_comm, dot3_normalize_left, dot3_comm]

theorem dot3_normalize_self (u : V3) (h : 0 < dot3 u u) :
    dot3 (normalize u) (normalize u) = 1 := by
  rw [dot3_normalize_left, dot3_normalize_right, div_div,
    Real.mul_self_sqrt (le_of_lt h), div_self (ne_of_gt h)]

/-- Homogeneous promotions of translation-free frames multiply blockwise. -/
theorem hom44_with0_mul (R S : Matrix (Fin 3) (Fin 3) ℝ) (h : R * S = 1) :
    hom44 (with0 R) * hom44 (with0 S) = 1 := by
  have he : ∀ a b : Fin 3, R a 0 * S 0 b + R a 1 * S 1 b + R a 2 * S 2 b =
      if a = b then 1 else 0 := by
    intro a b
    have h2 := congrFun (congrFun h a) b
    rwa [Matrix.mul_apply, Fin.sum_univ_three, Matrix.one_apply] at h2
  have e00 : R 0 0 * S 0 0 + R 0 1 * S 1 0 + R 0 2 * S 2 0 = 1 := by simpa using he 0 0
  have e01 : R 0 0 * S 0 1 + R 0 1 * S 1 1 + R 0 2 * S 2 1 = 0 := by
    have h2 := he 0 1; simp +decide at h2; exact h2
  have e02 : R 0 0 * S 0 2 + R 0 1 * S 1 2 + R 0 2 * S 2 2 = 0 := by
    have h2 := he 0 2; simp +decide at h2; exact h2
  have e10 : R 1 0 * S 0 0 + R 1 1 * S 1 0 + R 1 2 * S 2 0 = 0 := by
    have h2 := he 1 0; simp +decide at h2; exact h2
  have e11 : R 1 0 * S 0 1 + R 1 1 * S 1 1 + R 1 2 * S 2 1 = 1 := by simpa using he 1 1
  have e12 : R 1 0 * S 0 2 + R 1 1 * S 1 2 + R 1 2 * S 2 2 = 0 := by
    have h2 := he 1 2; simp +decide at h2; exact h2
  have e20 : R 2 0 * S 0 0 + R 2 1 * S 1 0 + R 2 2 * S 2 0 = 0 := by
    have h2 := he 2 0; simp +decide at h2; exact h2
  have e21 : R 2 0 * S 0 1 + R 2 1 * S 1 1 + R 2 2 * S 2 1 = 0 := by
    have h2 := he 2 1; simp +decide at h2; exact h2
  have e22 : R 2 0 * S 0 2 + R 2 1 * S 1 2 + R 2 2 * S 2 2 = 1 := by simpa using he 2 2
  ext r c
  rw [Matrix.mul_apply, Fin.sum_univ_four]
  fin_cases r <;> fin_cases c <;>
    simp +decide [hom44, with0, Matrix.one_apply] <;>
    first
      | exact e00
      | exact e01
      | exact e02
      | exact e10
      | exact e11
      | exact e12
      | exact e20
      | exact e21
      | exact e22
      | norm_num

/-- Under the code's non-degeneracy conditions, the columns of the
spherify frame (`vec1, vec2, vec0`) are orthonormal. -/
theorem sph_rot3_orthonormal {n : ℕ} (poses : Fin (n + 1) → PoseR)
    (h4 : sph_up poses ≠ 0)
    (h5 : cross3 ![1 / 10, 2 / 10, 3 / 10] (sph_vec0 poses) ≠ 0) :
    (rot3 (sph_c2w poses))ᵀ * rot3 (sph_c2w poses) = 1 := by
  have hu : 0 < dot3 (sph_up poses) (sph_up poses) := dot3_self_pos _ h4
  have dv0 : dot3 (sph_vec0 poses) (sph_vec0 poses) = 1 := dot3_normalize_self _ hu
  have hw : 0 < dot3 (cross3 ![1 / 10, 2 / 10, 3 / 10] (sph_vec0 poses))
      (cross3 ![1 / 10, 2 / 10, 3 / 10] (sph_vec0 poses)) := dot3_self_pos _ h5
  have dv1 : dot3 (sph_vec1 poses) (sph_vec1 poses) = 1 := by
    unfold sph_vec1
    exact dot3_normalize_self _ hw
  have dv0v1 : dot3 (sph_vec0 poses) (sph_vec1 poses) = 0 := by
    unfold sph_vec1
    rw [dot3_normalize_right, dot3_comm, dot3_cross_right, zero_div]
  have hcc : dot3 (cross3 (sph_vec0 poses) (sph_vec1 poses))
      (cross3 (sph_vec0 poses) (sph_vec1 poses)) = 1 := by
    rw [dot3_cross_self, dv0, dv1, dv0v1]
    ring
  have dv2 : dot3 (sph_vec2 poses) (sph_vec2 poses) = 1 := by
    unfold sph_vec2
    exact dot3_normalize_self _ (by rw [hcc]; norm_num)
  have dv2v0 : dot3 (sph_vec2 poses) (sph_vec0 poses) = 0 := by
    unfold sph_vec2
    rw [dot3_normalize_left, dot3_cross_left, zero_div]
  have dv2v1 : dot3 (sph_vec2 poses) (sph_vec1 poses) = 0 := by
    unfold sph_vec2
    rw [dot3_normalize_left, dot3_cross_right, zero_div]
  have g11 : sph_vec1 poses 0 * sph_vec1 poses 0 + sph_vec1 poses 1 * sph_vec1 poses 1 +
      sph_vec1 poses 2 * sph_vec1 poses 2 = 1 := by rw [← dot3_expand]; exact dv1
  have g22 : sph_vec2 poses 0 * sph_vec2 poses 0 + sph_vec2 poses 1 * sph_vec2 poses 1 +
      sph_vec2 poses 2 * sph_vec2 poses 2 = 1 := by rw [← dot3_expand]; exact dv2
  have g00 : sph_vec0 poses 0 * sph_vec0 poses 0 + sph_vec0 poses 1 * sph_vec0 poses 1 +
      sph_vec0 poses 2 * sph_vec0 poses 2 = 1 := by rw [← dot3_expand]; exact dv0
  have g01 : sph_vec0 poses 0 * sph_vec1 poses 0 + sph_vec0 poses 1 * sph_vec1 poses 1 +
      sph_vec0 poses 2 * sph_vec1 poses 2 = 0 := by rw [← dot3_expand]; exact dv0v1
  have g20 : sph_vec2 poses 0 * sph_vec0 poses 0 + sph_vec2 poses 1 * sph_vec0 poses 1 +
      sph_vec2 poses 2 * sph_vec0 poses 2 = 0 := by rw [← dot3_expand]; exact dv2v0
  have g21 : sph_vec2 poses 0 * sph_vec1 poses 0 + sph_vec2 poses 1 * sph_vec1 poses 1 +
      sph_vec2 poses 2 * sph_vec1 poses 2 = 0 := by rw [← dot3_expand]; exact dv2v1
  ext i j
  rw [Matrix.mul_apply, Fin.sum_univ_three]
  fin_cases i <;> fin_cases j <;>
    simp +decide [rot3, sph_c2w, Matrix.transpose_apply, Matrix.one_apply] <;>
    first
      | linear_combination g11
      | linear_combination g22
      | linear_combination g00
      | linear_combination g01
      | linear_combination g20
      | linear_combination g21
      | norm_num

/-- The first three rows of a homogeneous promotion are the promoted frame. -/
theorem hom44_apply_castSucc (p : Matrix (Fin 3) (Fin 4) ℝ) (r : Fin 3) (c : Fin 4) :
    hom44 p r.castSucc c = p r c := by
  have hr : ((r.castSucc : Fin 4) : ℕ) < 3 := by simpa using r.isLt
  simp only [hom44, Matrix.of_apply, dif_pos hr]
  have he : (⟨((r.castSucc : Fin 4) : ℕ), hr⟩ : Fin 3) = r := Fin.ext (by simp)
  rw [he]

/-- C5: if every camera position lies exactly on the unit sphere centered at
the origin and every forward column points exactly at the origin
(`rays_d = -rays_o`), then `min_line_dist` returns the origin exactly and
the spherify rescale factor `sc` equals 1.  The hypotheses `h3`–`h5` are the
conditions the code itself needs to run: the accumulated normal matrix must
be invertible (`np.linalg.inv`), and the mean camera position must neither
vanish nor have its normalization parallel to `[.1,.2,.3]` (otherwise
`normalize` divides by zero). -/
theorem spherify_unit_sphere {n : ℕ} (poses : Fin (n + 1) → PoseR)
    (h1 : ∀ i, dot3 (sph_rays_o poses i) (sph_rays_o poses i) = 1)
    (h2 : ∀ i, sph_rays_d poses i = fun r => -(sph_rays_o poses i r))
    (h3 : IsUnit (line_M (sph_rays_d poses)).det)
    (h4 : (fun r => (∑ i, sph_rays_o poses i r) / ((n : ℝ) + 1)) ≠ (0 : V3))
    (h5 : cross3 ![1 / 10, 2 / 10, 3 / 10]
        (normalize (fun r => (∑ i, sph_rays_o poses i r) / ((n : ℝ) + 1))) ≠ 0) :
    min_line_dist (sph_rays_o poses) (sph_rays_d poses) = 0 ∧ sph_sc poses = 1 := by
  have hnz : ((n : ℝ) + 1) ≠ 0 := by positivity
  -- Step 1: every residual b_i vanishes, so the least-squares point is 0.
  have hb : ∀ (i : Fin (n + 1)) (r : Fin 3),
      line_b (sph_rays_o poses) (sph_rays_d poses) i r = 0 := by
    intro i r
    have h1e := h1 i
    rw [dot3_expand] at h1e
    have hd : ∀ s : Fin 3, sph_rays_d poses i s = -(sph_rays_o poses i s) :=
      fun s => congrFun (h2 i) s
    simp only [line_b, line_A, Matrix.mulVec, Matrix.dotProduct, Matrix.sub_apply,
      Matrix.one_apply, Matrix.of_apply, Fin.sum_univ_three, Pi.neg_apply, hd]
    fin_cases r
    · simp +decide
      linear_combination sph_rays_o poses i 0 * h1e
    · simp +decide
      linear_combination sph_rays_o poses i 1 * h1e
    · simp +decide
      linear_combination sph_rays_o poses i 2 * h1e
  have hpt : min_line_dist (sph_rays_o poses) (sph_rays_d poses) = 0 := by
    unfold min_line_dist
    have hzero : (fun r => (∑ i, line_b (sph_rays_o poses) (sph_rays_d poses) i r) /
        ((n : ℝ) + 1)) = (0 : V3) := by
      funext r
      simp [hb]
    rw [hzero, Matrix.mulVec_zero, neg_zero]
  -- Step 2: the new frame is centered at the origin with orthonormal columns.
  have hcen : sph_center poses = 0 := hpt
  have hup : sph_up poses = fun r => (∑ i, sph_rays_o poses i r) / ((n : ℝ) + 1) := by
    funext r
    unfold sph_up
    rw [hcen]
    simp [Finset.sum_div]
  have h4' : sph_up poses ≠ 0 := by
    rw [hup]
    exact h4
  have h5' : cross3 ![1 / 10, 2 / 10, 3 / 10] (sph_vec0 poses) ≠ 0 := by
    show cross3 ![1 / 10, 2 / 10, 3 / 10] (normalize (sph_up poses)) ≠ 0
    rw [hup]
    exact h5
  have hRTR := sph_rot3_orthonormal poses h4' h5'
  have hRRT : rot3 (sph_c2w poses) * (rot3 (sph_c2w poses))ᵀ = 1 :=
    Matrix.mul_eq_one_comm.mp hRTR
  set R := rot3 (sph_c2w poses) with hRdef
  have hc2w0 : sph_c2w poses = with0 R := by
    ext r c
    by_cases hcl : (c : ℕ) < 3
    · have hcc : (⟨(c : ℕ), hcl⟩ : Fin 3).castSucc = c := by
        apply Fin.ext
        rfl
      rw [hRdef]
      simp only [with0, rot3, Matrix.of_apply, dif_pos hcl, hcc]
    · have hc3 : (c : ℕ) = 3 := by have := c.isLt; omega
      simp only [with0, Matrix.of_apply, dif_neg hcl, sph_c2w, hc3]
      norm_num
      rw [hcen]
      rfl
  have hC : hom44 (sph_c2w poses) * hom44 (with0 Rᵀ) = 1 := by
    rw [hc2w0]
    exact hom44_with0_mul R Rᵀ hRRT
  have hB : (hom44 (sph_c2w poses))⁻¹ = hom44 (with0 Rᵀ) :=
    Matrix.inv_eq_right_inv hC
  -- Step 3: the reset translations are rotations of unit vectors.
  have ht : ∀ (i : Fin (n + 1)) (r : Fin 3), sph_poses_reset poses i r.castSucc 3 =
      R 0 r * sph_rays_o poses i 0 + R 1 r * sph_rays_o poses i 1 +
        R 2 r * sph_rays_o poses i 2 := by
    intro i r
    unfold sph_poses_reset
    rw [hB, Matrix.mul_apply, Fin.sum_univ_four, hom44_apply_castSucc,
      hom44_apply_castSucc, hom44_apply_castSucc, hom44_apply_castSucc]
    show Rᵀ r 0 * sph_rays_o poses i 0 + Rᵀ r 1 * sph_rays_o poses i 1 +
        Rᵀ r 2 * sph_rays_o poses i 2 + 0 * 1 = _
    rw [Matrix.transpose_apply, Matrix.transpose_apply, Matrix.transpose_apply]
    ring
  have hsum : ∀ i : Fin (n + 1),
      (∑ r : Fin 3, sph_poses_reset poses i r.castSucc 3 ^ 2) = 1 := by
    intro i
    have ho := h1 i
    rw [dot3_expand] at ho
    have hf : ∀ a b : Fin 3, R a 0 * R b 0 + R a 1 * R b 1 + R a 2 * R b 2 =
        if a = b then 1 else 0 := by
      intro a b
      have hab := congrFun (congrFun hRRT a) b
      rwa [Matrix.mul_apply, Fin.sum_univ_three, Matrix.transpose_apply,
        Matrix.transpose_apply, Matrix.transpose_apply, Matrix.one_apply] at hab
    have f00 : R 0 0 * R 0 0 + R 0 1 * R 0 1 + R 0 2 * R 0 2 = 1 := by simpa using hf 0 0
    have f11 : R 1 0 * R 1 0 + R 1 1 * R 1 1 + R 1 2 * R 1 2 = 1 := by simpa using hf 1 1
    have f22 : R 2 0 * R 2 0 + R 2 1 * R 2 1 + R 2 2 * R 2 2 = 1 := by simpa using hf 2 2
    have f01 : R 0 0 * R 1 0 + R 0 1 * R 1 1 + R 0 2 * R 1 2 = 0 := by
      have hab := hf 0 1; simp +decide at hab; exact hab
    have f02 : R 0 0 * R 2 0 + R 0 1 * R 2 1 + R 0 2 * R 2 2 = 0 := by
      have hab := hf 0 2; simp +decide at hab; exact hab
    have f12 : R 1 0 * R 2 0 + R 1 1 * R 2 1 + R 1 2 * R 2 2 = 0 := by
      have hab := hf 1 2; simp +decide at hab; exact hab
    simp only [Fin.sum_univ_three, ht i 0, ht i 1, ht i 2]
    linear_combination
      (sph_rays_o poses i 0 * sph_rays_o poses i 0) * f00 +
      (sph_rays_o poses i 1 * sph_rays_o poses i 1) * f11 +
      (sph_rays_o poses i 2 * sph_rays_o poses i 2) * f22 +
      (2 * sph_rays_o poses i 0 * sph_rays_o poses i 1) * f01 +
      (2 * sph_rays_o poses i 0 * sph_rays_o poses i 2) * f02 +
      (2 * sph_rays_o poses i 1 * sph_rays_o poses i 2) * f12 + ho
  -- Step 4: the RMS radius is 1, so sc = 1.
  have hrad : sph_rad poses = 1 := by
    unfold sph_rad
    rw [Finset.sum_congr rfl (fun i _ => hsum i), Finset.sum_const, Finset.card_univ,
      Fintype.card_fin, nsmul_eq_mul, mul_one]
    push_cast
    rw [div_self hnz, Real.sqrt_one]
  refine ⟨hpt, ?_⟩
  unfold sph_sc
  rw [hrad]
  norm_num

/-- The three witness cameras sit on the unit sphere. -/
theorem sphere_poses_h1 :
    ∀ i, dot3 (sph_rays_o sphere_poses i) (sph_rays_o sphere_poses i) = 1 := by
  intro i
  rw [dot3_expand]
  fin_cases i <;> simp +decide [sph_rays_o, sphere_poses]

/-- The witness cameras look exactly at the origin. -/
theorem sphere_poses_h2 :
    ∀ i, sph_rays_d sphere_poses i = fun r => -(sph_rays_o sphere_poses i r) :=
  fun _ => rfl

/-- Three-camera sums, stated at the index type `Fin (2 + 1)` produced by
instantiating the pose-set definitions at a three-element set. -/
theorem sum_fin3 (f : Fin (2 + 1) → ℝ) : ∑ i, f i = f 0 + f 1 + f 2 :=
  Fin.sum_univ_three f

/-- The accumulated normal matrix of the witness cameras is `(2/3) • 1`. -/
theorem sphere_poses_hM :
    line_M (sph_rays_d sphere_poses) =
      Matrix.of fun r c => if r = c then (2 / 3 : ℝ) else 0 := by
  ext r c
  simp only [line_M, Matrix.smul_apply, Matrix.sum_apply, smul_eq_mul]
  rw [sum_fin3]
  fin_cases r <;> fin_cases c <;>
    simp +decide [line_A, Matrix.mul_apply, Matrix.transpose_apply, Matrix.sub_apply,
      Matrix.one_apply, Matrix.of_apply, Fin.sum_univ_three, sph_rays_d, sphere_poses] <;>
    norm_num

/-- The normal matrix of the witness cameras is invertible. -/
theorem sphere_poses_h3 : IsUnit (line_M (sph_rays_d sphere_poses)).det := by
  rw [sphere_poses_hM, Matrix.det_fin_three]
  simp +decide [Matrix.of_apply]

/-- The mean witness camera position is `(1/3, 1/3, 1/3)`. -/
theorem sphere_poses_mean :
    (fun r : Fin 3 => (∑ i, sph_rays_o sphere_poses i r) / (((2 : ℕ) : ℝ) + 1)) =
      (fun _ => 1 / 3) := by
  funext r
  rw [sum_fin3]
  fin_cases r <;>
    · simp +decide [sph_rays_o, sphere_poses]
      norm_num

/-- The mean witness camera position does not vanish. -/
theorem sphere_poses_h4 :
    (fun r : Fin 3 => (∑ i, sph_rays_o sphere_poses i r) / (((2 : ℕ) : ℝ) + 1)) ≠
      (0 : V3) := by
  rw [sphere_poses_mean]
  intro h
  have h0 := congrFun h 0
  norm_num at h0

/-- The cross product seeding the spherify frame does not vanish at the
witness input. -/
theorem sphere_poses_h5 :
    cross3 ![1 / 10, 2 / 10, 3 / 10]
      (normalize (fun r : Fin 3 =>
        (∑ i, sph_rays_o sphere_poses i r) / (((2 : ℕ) : ℝ) + 1))) ≠ 0 := by
  rw [sphere_poses_mean]
  have hdot : dot3 (fun _ : Fin 3 => (1 : ℝ) / 3) (fun _ => 1 / 3) = 1 / 3 := by
    rw [dot3_expand]
    norm_num
  have hs : (0 : ℝ) < Real.sqrt (1 / 3) := Real.sqrt_pos.mpr (by norm_num)
  intro h
  have h1 := congrFun h 1
  rw [cross3_apply1] at h1
  simp only [normalize, hdot, Pi.zero_apply] at h1
  rw [show ((![1 / 10, 2 / 10, 3 / 10] : V3) 2) = 3 / 10 from rfl,
    show ((![1 / 10, 2 / 10, 3 / 10] : V3) 0) = 1 / 10 from rfl] at h1
  have hs' : Real.sqrt (1 / 3) ≠ 0 := ne_of_gt hs
  field_simp at h1
  have h3 : (0 : ℝ) < Real.sqrt 3 := Real.sqrt_pos.mpr (by norm_num)
  linarith

/-- Witness for `spherify_unit_sphere` at the three unit-basis cameras. -/
theorem spherify_unit_sphere_witness :
    ((∀ i, dot3 (sph_rays_o sphere_poses i) (sph_rays_o sphere_poses i) = 1) ∧
     (∀ i, sph_rays_d sphere_poses i = fun r => -(sph_rays_o sphere_poses i r)) ∧
     IsUnit (line_M (sph_rays_d sphere_poses)).det ∧
     (fun r : Fin 3 => (∑ i, sph_rays_o sphere_poses i r) / (((2 : ℕ) : ℝ) + 1)) ≠
       (0 : V3) ∧
     cross3 ![1 / 10, 2 / 10, 3 / 10]
       (normalize (fun r : Fin 3 =>
         (∑ i, sph_rays_o sphere_poses i r) / (((2 : ℕ) : ℝ) + 1))) ≠ 0) ∧
    (min_line_dist (sph_rays_o sphere_poses) (sph_rays_d sphere_poses) = 0 ∧
     sph_sc sphere_poses = 1) :=
  ⟨⟨sphere_poses_h1, sphere_poses_h2, sphere_poses_h3, sphere_poses_h4, sphere_poses_h5⟩,
   spherify_unit_sphere sphere_poses sphere_poses_h1 sphere_poses_h2 sphere_poses_h3
     sphere_poses_h4 sphere_poses_h5⟩

end LLFF
